import Mathlib

/-!
Verification development for the QBX core of `pytential`: the Refinement
Engine, the Target Association Engine and the FMM/QBX Cost Model.

The repository ships only the tests (`test/test_global_qbx.py`,
`test/test_cost_model.py`) and callers of these engines; the engines
themselves (`pytential/qbx/refinement.py`, `pytential/qbx/target_assoc.py`,
`pytential/qbx/cost.py`) are not part of the source tree.  Accordingly the
engines are modelled from the specification, faithfully to its wording,
and each such definition carries a doc comment starting
`Modelled from the spec:`.

Geometry is two-dimensional with exact rational coordinates.  Distances
are compared through their squares (`dist2`), which is equivalent to the
spec comparisons of nonnegative distances against nonnegative bounds.
-/

namespace Pytential

/-- A point in the plane, with exact rational coordinates. -/
structure Pt where
  x : ℚ
  y : ℚ
deriving DecidableEq

/-- Squared Euclidean distance between two points. -/
def dist2 (a b : Pt) : ℚ := (a.x - b.x) ^ 2 + (a.y - b.y) ^ 2

/-! ## Refinement Engine (spec section 4.1) -/

/-- Modelled from the spec: a Panel of the Discretization carries its
geometric extent (`size`, the panel size), its quadrature nodes, and its
two expansion centers — one per side −1/+1 (spec section 3: every panel
has exactly two centers). -/
structure Panel where
  size : ℚ
  nodes : List Pt
  centerInt : Pt
  centerExt : Pt
deriving DecidableEq

/-- Modelled from the spec: a Discretization is an ordered collection of
Panels. -/
structure Discretization where
  panels : List Panel
deriving DecidableEq

/-- Default panel used for out-of-range index accesses. -/
def dummyPanel : Panel := ⟨0, [], ⟨0, 0⟩, ⟨0, 0⟩⟩

/-- The panel at index `i` of a discretization. -/
def panelAt (d : Discretization) (i : ℕ) : Panel := d.panels.getD i dummyPanel

/-- The two expansion centers of a panel, side −1 then side +1. -/
def panelCenters (p : Panel) : List Pt := [p.centerInt, p.centerExt]

/-- Modelled from the spec (4.1 step 2): a panel is flagged by the
resolution criterion when `panel_size × wavenumber > r`. -/
def resolutionFlagged (k r : ℚ) (p : Panel) : Bool :=
  decide (r < p.size * k)

/-- Modelled from the spec (4.1 step 3): a center of `p1` is too close to
panel `p2` when its distance to some node of `p2` is below
`panel_size(p1)/2`, compared here through squares. -/
def tooCloseTo (p1 p2 : Panel) : Bool :=
  (panelCenters p1).any fun c =>
    p2.nodes.any fun nd => decide (dist2 c nd < (p1.size / 2) ^ 2)

/-- Modelled from the spec (4.1 step 3): panel `i` is flagged by the
center-disjointness criterion when one of its two centers is closer than
`panel_size(i)/2` to a node of some *other* panel. -/
def disjointFlagged (d : Discretization) (i : ℕ) : Bool :=
  (List.range d.panels.length).any fun j =>
    decide (j ≠ i) && tooCloseTo (panelAt d i) (panelAt d j)

/-- Modelled from the spec (4.1 steps 2–3): panel `i` is flagged when
either criterion flags it. -/
def panelFlagged (k r : ℚ) (d : Discretization) (i : ℕ) : Bool :=
  resolutionFlagged k r (panelAt d i) || disjointFlagged d i

/-- Modelled from the spec (4.1 step 5): some panel of the discretization
is flagged. -/
def anyFlagged (k r : ℚ) (d : Discretization) : Bool :=
  (List.range d.panels.length).any (panelFlagged k r d)

/-- Modelled from the spec (4.1 step 4): subdivide every flagged panel
using the subdivision procedure `sub` (regenerating nodes and centers is
the discretization library's job, abstracted as `sub`); also return how
many panels were subdivided in this pass. -/
def refineStep (sub : Panel → List Panel) (k r : ℚ) (d : Discretization) :
    Discretization × ℕ :=
  ⟨⟨((List.range d.panels.length).map fun i =>
      if panelFlagged k r d i then sub (panelAt d i) else [panelAt d i]).flatten⟩,
   ((List.range d.panels.length).filter (panelFlagged k r d)).length⟩

/-- Modelled from the spec (7): refinement convergence failure after
exhausting the iteration budget is a fatal, reported condition. -/
inductive RefineError where
  | convergenceFailure
deriving DecidableEq

/-- Modelled from the spec (4.1 step 5): iterate `refineStep` until no
panel is flagged, or fail when the iteration cap is hit without
convergence.  The second component of a successful result counts the
total number of panel subdivisions performed. -/
def refineAux (sub : Panel → List Panel) (k r : ℚ) :
    ℕ → Discretization → ℕ → Except RefineError (Discretization × ℕ)
  | 0, d, cnt =>
    if anyFlagged k r d then Except.error RefineError.convergenceFailure
    else Except.ok (d, cnt)
  | fuel + 1, d, cnt =>
    if anyFlagged k r d then
      refineAux sub k r fuel (refineStep sub k r d).1
        (cnt + (refineStep sub k r d).2)
    else Except.ok (d, cnt)

/-- Modelled from the spec (4.1): the Refinement Engine entry point.
Inputs: subdivision procedure, wavenumber `k`, resolution threshold `r`,
iteration cap, initial Discretization.  Output: refined Discretization
plus the number of subdivisions, or the convergence-failure condition. -/
def refine_for_global_qbx (sub : Panel → List Panel) (k r : ℚ) (cap : ℕ)
    (d : Discretization) : Except RefineError (Discretization × ℕ) :=
  refineAux sub k r cap d 0

/-- A successful refinement result leaves no panel flagged. -/
theorem refineAux_ok_not_flagged (sub : Panel → List Panel) (k r : ℚ) :
    ∀ (fuel : ℕ) (d : Discretization) (cnt : ℕ) (d' : Discretization) (n : ℕ),
      refineAux sub k r fuel d cnt = Except.ok (d', n) →
      anyFlagged k r d' = false := by
  intro fuel
  induction fuel with
  | zero =>
    intro d cnt d' n h
    by_cases hf : anyFlagged k r d
    · simp [refineAux, hf] at h
    · simp [refineAux, hf] at h
      rw [← h.1]
      exact Bool.eq_false_iff.mpr (by simp [hf])
  | succ m ih =>
    intro d cnt d' n h
    by_cases hf : anyFlagged k r d
    · simp only [refineAux, hf, if_true] at h
      exact ih _ _ _ _ h
    · simp [refineAux, hf] at h
      rw [← h.1]
      exact Bool.eq_false_iff.mpr (by simp [hf])

/-- If no panel is flagged, panel `i` satisfies both criteria. -/
theorem not_flagged_panel (k r : ℚ) (d : Discretization)
    (h : anyFlagged k r d = false) (i : ℕ) (hi : i < d.panels.length) :
    resolutionFlagged k r (panelAt d i) = false ∧
      disjointFlagged d i = false := by
  have hmem : i ∈ List.range d.panels.length := List.mem_range.mpr hi
  have hnp : ¬ panelFlagged k r d i = true := by
    have := List.any_eq_false.mp h i hmem
    exact this
  simp only [panelFlagged, Bool.or_eq_true, not_or] at hnp
  exact ⟨Bool.eq_false_iff.mpr hnp.1, Bool.eq_false_iff.mpr hnp.2⟩

/-- A concrete well-separated panel for witness instances. -/
def pEx1 : Panel := ⟨1, [⟨0, 0⟩, ⟨1, 0⟩], ⟨1/2, -1/2⟩, ⟨1/2, 1/2⟩⟩

/-- A second concrete panel, far from the first. -/
def pEx2 : Panel := ⟨1, [⟨10, 0⟩, ⟨11, 0⟩], ⟨21/2, -1/2⟩, ⟨21/2, 1/2⟩⟩

/-- A concrete discretization satisfying both refinement criteria. -/
def dEx : Discretization := ⟨[pEx1, pEx2]⟩

/-- Trivial subdivision procedure used in witness instances. -/
def subId : Panel → List Panel := fun p => [p]

/-- C2: for every panel of the Discretization returned by the Refinement
Engine run with wavenumber `k` and resolution threshold `r`,
`panel_size × k ≤ r`: no panel remains flagged by the resolution
criterion after refinement converges. -/
theorem refined_resolution_criterion (sub : Panel → List Panel) (k r : ℚ)
    (cap : ℕ) (d d' : Discretization) (n : ℕ)
    (h : refine_for_global_qbx sub k r cap d = Except.ok (d', n)) :
    ∀ i, i < d'.panels.length → (panelAt d' i).size * k ≤ r := by
  intro i hi
  have hnf := refineAux_ok_not_flagged sub k r cap d 0 d' n h
  have hr := (not_flagged_panel k r d' hnf i hi).1
  simp only [resolutionFlagged, decide_eq_false_iff_not, not_lt] at hr
  exact hr

/-- Witness for C2 at a concrete two-panel discretization. -/
theorem refined_resolution_criterion_witness :
    (panelAt dEx 0).size * 1 ≤ 5 :=
  refined_resolution_criterion subId 1 5 3 dEx dEx 0
    (by with_unfolding_all rfl) 0 (by decide)

/-- C3: for every ordered pair of distinct panels of the refined
Discretization, every expansion center of the first panel is at squared
distance at least `(panel_size/2)²` from every quadrature node of the
second panel. -/
theorem refined_center_disjointness (sub : Panel → List Panel) (k r : ℚ)
    (cap : ℕ) (d d' : Discretization) (n : ℕ)
    (h : refine_for_global_qbx sub k r cap d = Except.ok (d', n)) :
    ∀ i, i < d'.panels.length → ∀ j, j < d'.panels.length → j ≠ i →
      ∀ c ∈ panelCenters (panelAt d' i), ∀ nd ∈ (panelAt d' j).nodes,
        ((panelAt d' i).size / 2) ^ 2 ≤ dist2 c nd := by
  intro i hi j hj hne c hc nd hnd
  have hnf := refineAux_ok_not_flagged sub k r cap d 0 d' n h
  have hd := (not_flagged_panel k r d' hnf i hi).2
  simp only [disjointFlagged, List.any_eq_false] at hd
  have h1 := hd j (List.mem_range.mpr hj)
  simp only [hne, Bool.and_eq_true, decide_eq_true_eq, not_and, ne_eq,
    not_false_iff, forall_const] at h1
  have h2 : ((panelAt d' j).nodes.any fun q =>
      decide (dist2 c q < ((panelAt d' i).size / 2) ^ 2)) = false := by
    have h3 : (tooCloseTo (panelAt d' i) (panelAt d' j)) = false :=
      Bool.eq_false_iff.mpr h1
    simp only [tooCloseTo, List.any_eq_false] at h3
    exact Bool.eq_false_iff.mpr (h3 c hc)
  have h4 := List.any_eq_false.mp h2 nd hnd
  simpa [not_lt] using h4

/-- Witness for C3 at a concrete two-panel discretization. -/
theorem refined_center_disjointness_witness :
    ((panelAt dEx 0).size / 2) ^ 2 ≤ dist2 ⟨1/2, -1/2⟩ ⟨10, 0⟩ :=
  refined_center_disjointness subId 1 5 3 dEx dEx 0
    (by with_unfolding_all rfl) 0 (by decide) 1 (by decide) (by decide)
    ⟨1/2, -1/2⟩ (by with_unfolding_all decide) ⟨10, 0⟩
    (by with_unfolding_all decide)

/-- C8: refinement is idempotent — run on a Discretization that already
satisfies both the resolution criterion and the center-disjointness
criterion it performs zero subdivisions and returns the input panels. -/
theorem refinement_idempotent (sub : Panel → List Panel) (k r : ℚ)
    (cap : ℕ) (d : Discretization)
    (hres : ∀ i, i < d.panels.length → (panelAt d i).size * k ≤ r)
    (hdisj : ∀ i, i < d.panels.length → ∀ j, j < d.panels.length → j ≠ i →
      ∀ c ∈ panelCenters (panelAt d i), ∀ nd ∈ (panelAt d j).nodes,
        ((panelAt d i).size / 2) ^ 2 ≤ dist2 c nd) :
    refine_for_global_qbx sub k r cap d = Except.ok (d, 0) := by
  have hflag : anyFlagged k r d = false := by
    unfold anyFlagged
    rw [List.any_eq_false]
    intro i hmem hcontra
    have hi := List.mem_range.mp hmem
    rcases Bool.or_eq_true_iff.mp hcontra with hc | hc
    · have : r < (panelAt d i).size * k := by
        simpa [resolutionFlagged] using hc
      exact absurd (hres i hi) (not_le.mpr this)
    · simp only [disjointFlagged, List.any_eq_true] at hc
      obtain ⟨j, hjmem, hj⟩ := hc
      have hjlen := List.mem_range.mp hjmem
      rcases Bool.and_eq_true_iff.mp hj with ⟨hne, hclose⟩
      have hne2 : j ≠ i := of_decide_eq_true hne
      simp only [tooCloseTo, List.any_eq_true] at hclose
      obtain ⟨c, hcmem, hcc⟩ := hclose
      obtain ⟨nd, hndmem, hdd⟩ := hcc
      have hlt : dist2 c nd < ((panelAt d i).size / 2) ^ 2 :=
        of_decide_eq_true hdd
      exact absurd (hdisj i hi j hjlen hne2 c hcmem nd hndmem)
        (not_le.mpr hlt)
  cases cap with
  | zero => simp [refine_for_global_qbx, refineAux, hflag]
  | succ m => simp [refine_for_global_qbx, refineAux, hflag]

/-- Witness for C8 at a concrete two-panel discretization that already
satisfies both criteria. -/
theorem refinement_idempotent_witness :
    refine_for_global_qbx subId 1 5 3 dEx = Except.ok (dEx, 0) :=
  refinement_idempotent subId 1 5 3 dEx (by with_unfolding_all decide)
    (by with_unfolding_all decide)

/-! ## Target Association Engine (spec section 4.2) -/

/-- Modelled from the spec: a source quadrature node of the refined
geometry, carrying its position, unit normal and the local panel size
(the per-source-node `panel_sizes("nsources")` array of the tests). -/
structure SourceNode where
  pos : Pt
  normal : Pt
  size : ℚ
deriving DecidableEq

/-- Modelled from the spec: the refined source geometry consumed by the
Target Association Engine, as the ordered list of its source nodes. -/
structure SourceGeometry where
  nodes : List SourceNode
deriving DecidableEq

/-- Default source node for out-of-range accesses. -/
def dummyNode : SourceNode := ⟨⟨0, 0⟩, ⟨0, 0⟩, 0⟩

/-- Default point for out-of-range accesses. -/
def dummyPt : Pt := ⟨0, 0⟩

/-- The source node at index `i`. -/
def nodeAt (g : SourceGeometry) (i : ℕ) : SourceNode := g.nodes.getD i dummyNode

/-- Modelled from the spec and the tests: centers for source `i` are
located at center indices `2 i` and `2 i + 1`, with side order
−1, +1, −1, +1, …; `centerSide` recovers the side of a center index. -/
def centerSide (c : ℕ) : ℤ := if c % 2 = 0 then -1 else 1

/-- The originating source-node index of a center index. -/
def centerSource (c : ℕ) : ℕ := c / 2

/-- Modelled from the spec: the expansion center of a source node on a
given side sits at `panel_size/2` off the surface along the normal
(glossary: the stick-out displacement of a center). -/
def centerPos (s : SourceNode) (side : ℤ) : Pt :=
  ⟨s.pos.x + (side : ℚ) * (s.size / 2) * s.normal.x,
   s.pos.y + (side : ℚ) * (s.size / 2) * s.normal.y⟩

/-- Position of the center with interleaved index `c`. -/
def centerPosIdx (g : SourceGeometry) (c : ℕ) : Pt :=
  centerPos (nodeAt g (centerSource c)) (centerSide c)

/-- Modelled from the spec: the association distance tolerance scaled by
local panel size — squared radius `(panel_size/2)²` at the center's
originating source. -/
def centerRadius2 (g : SourceGeometry) (c : ℕ) : ℚ :=
  ((nodeAt g (centerSource c)).size / 2) ^ 2

/-- Modelled from the spec: configuration of the far-target
short-circuit — a configured multiple of the global length scale. -/
structure AssocConfig where
  farMultiple : ℚ
  lengthScale : ℚ
deriving DecidableEq

/-- Modelled from the spec (4.2): a target is "far" when its distance
from every source point exceeds the configured multiple of the global
length scale (squared comparison). -/
def isFar (cfg : AssocConfig) (g : SourceGeometry) (t : Pt) : Bool :=
  g.nodes.all fun s =>
    decide ((cfg.farMultiple * cfg.lengthScale) ^ 2 < dist2 t s.pos)

/-- Modelled from the spec (4.2): the in-tolerance candidate centers for
a target — center indices whose side matches the side constraint (when
one is requested) and whose distance to the target is within the
panel-size-scaled tolerance. -/
def inTolCenters (g : SourceGeometry) (t : Pt) (allowed : Option ℤ) :
    List ℕ :=
  (List.range (2 * g.nodes.length)).filter fun c =>
    (match allowed with
     | Option.none => true
     | Option.some s => decide (centerSide c = s)) &&
    decide (dist2 t (centerPosIdx g c) ≤ centerRadius2 g c)

/-- Nearest-center selection among a candidate list (first wins ties). -/
def argminCenter (g : SourceGeometry) (t : Pt) : List ℕ → Option ℕ
  | [] => Option.none
  | c :: cs =>
    match argminCenter g t cs with
    | Option.none => Option.some c
    | Option.some b =>
      if dist2 t (centerPosIdx g c) ≤ dist2 t (centerPosIdx g b) then
        Option.some c
      else Option.some b

/-- The side bit appended to `2 i` for an on-surface request: side +1
centers sit at odd indices. -/
def bitFor (q : ℤ) : ℕ := if q = 1 then 1 else 0

/-- Modelled from the spec (4.2): association of one target with
requested side code `q`.  Returns the signed `target_to_center` entry
(−1 meaning "unassociated") together with a flag telling whether a
tree-accelerated geometric search was performed.  Far targets are
short-circuited to −1 with no search; side ±1 requests are resolved by
direct index lookup of a coincident source node, with no
tolerance-based geometric search; side ±2 requests run the nearest
in-tolerance center search constrained to the requested side; side 0
accepts the nearest in-tolerance center of either side. -/
def assocOne (cfg : AssocConfig) (g : SourceGeometry) (t : Pt) (q : ℤ) :
    ℤ × Bool :=
  if isFar cfg g t then (-1, false)
  else if q = 1 ∨ q = -1 then
    match (List.range g.nodes.length).find?
        (fun i => decide ((nodeAt g i).pos = t)) with
    | Option.some i => (((2 * i + bitFor q : ℕ) : ℤ), false)
    | Option.none => (-1, false)
  else if q = 2 ∨ q = -2 then
    match argminCenter g t (inTolCenters g t
        (Option.some (if q = 2 then 1 else -1))) with
    | Option.some c => ((c : ℤ), true)
    | Option.none => (-1, true)
  else
    match argminCenter g t (inTolCenters g t Option.none) with
    | Option.some c => ((c : ℤ), true)
    | Option.none => (-1, true)

/-- Decoded source-node index of a `target_to_center` entry
(`target_to_source = target_to_center // 2` in the tests). -/
def decodeSource (r : ℤ) : ℤ := r / 2

/-- Decoded side of a `target_to_center` entry
(`2 * (target_to_center % 2) - 1` in the tests). -/
def decodeSide (r : ℤ) : ℤ := 2 * (r % 2) - 1

/-- Modelled from the spec: a target group handed to the engine — a point
set with its requested side code, optionally marked
mandatory-association. -/
structure TargetGroup where
  points : List Pt
  qbxSide : ℤ
  mandatory : Bool
deriving DecidableEq

/-- Modelled from the spec (4.2, 7): the target-association-failure
condition carrying the indices of the failed targets. -/
structure QBXTargetAssociationFailedException where
  failed_target_indices : List ℕ
deriving DecidableEq

/-- Indices within one group whose targets found no center. -/
def groupFailedLocal (cfg : AssocConfig) (g : SourceGeometry)
    (grp : TargetGroup) : List ℕ :=
  (List.range grp.points.length).filter fun j =>
    decide ((assocOne cfg g (grp.points.getD j dummyPt) grp.qbxSide).1 = -1)

/-- Global indices of failed targets of mandatory groups, with `off` the
index offset of the first group in the list. -/
def failedTargets (cfg : AssocConfig) (g : SourceGeometry) :
    ℕ → List TargetGroup → List ℕ
  | _, [] => []
  | off, grp :: rest =>
    (if grp.mandatory then (groupFailedLocal cfg g grp).map (· + off)
     else [])
      ++ failedTargets cfg g (off + grp.points.length) rest

/-- The flattened `target_to_center` array over all target groups. -/
def target_to_center (cfg : AssocConfig) (g : SourceGeometry)
    (groups : List TargetGroup) : List ℤ :=
  groups.flatMap fun grp =>
    grp.points.map fun t => (assocOne cfg g t grp.qbxSide).1

/-- Modelled from the spec (4.2): the Target Association Engine entry
point.  When a mandatory group has a target with no in-tolerance
candidate it raises the failure condition carrying the failed target
indices; otherwise it returns the per-target association array. -/
def associate (cfg : AssocConfig) (g : SourceGeometry)
    (groups : List TargetGroup) :
    Except QBXTargetAssociationFailedException (List ℤ) :=
  if failedTargets cfg g 0 groups = [] then
    Except.ok (target_to_center cfg g groups)
  else Except.error ⟨failedTargets cfg g 0 groups⟩

/-- `argminCenter` only selects out of the candidate list. -/
theorem argminCenter_mem (g : SourceGeometry) (t : Pt) :
    ∀ (l : List ℕ) (c : ℕ), argminCenter g t l = Option.some c → c ∈ l := by
  intro l
  induction l with
  | nil => intro c h; simp [argminCenter] at h
  | cons a as ih =>
    intro c h
    simp only [argminCenter] at h
    cases hr : argminCenter g t as with
    | none => rw [hr] at h; simp at h; simp [h]
    | some b =>
      rw [hr] at h
      by_cases hle : dist2 t (centerPosIdx g a) ≤ dist2 t (centerPosIdx g b)
      · simp [hle] at h; simp [h]
      · simp [hle] at h
        exact List.mem_cons_of_mem a (ih c (h ▸ hr))

/-- `argminCenter` succeeds on a nonempty candidate list. -/
theorem argminCenter_isSome (g : SourceGeometry) (t : Pt) :
    ∀ (l : List ℕ), l ≠ [] → (argminCenter g t l).isSome = true := by
  intro l
  cases l with
  | nil => intro h; exact absurd rfl h
  | cons a as =>
    intro _
    simp only [argminCenter]
    cases hr : argminCenter g t as with
    | none => simp
    | some b =>
      by_cases hle : dist2 t (centerPosIdx g a) ≤ dist2 t (centerPosIdx g b)
      · simp [hle]
      · simp [hle]

/-- The node at a valid index is a member of the node list. -/
theorem nodeAt_mem (g : SourceGeometry) (i : ℕ) (hi : i < g.nodes.length) :
    nodeAt g i ∈ g.nodes := by
  have h1 : nodeAt g i = g.nodes[i] := by
    simp [nodeAt, List.getD_eq_getElem?_getD, List.getElem?_eq_getElem hi]
  rw [h1]
  exact List.getElem_mem hi

/-- The element returned by a successful find satisfies the predicate. -/
theorem find?_prop {α : Type} (p : α → Bool) (l : List α) (a : α)
    (h : l.find? p = Option.some a) : p a = true :=
  List.find?_some h

/-- A target coinciding with some source node is never far. -/
theorem not_far_of_coincident (cfg : AssocConfig) (g : SourceGeometry)
    (i : ℕ) (hi : i < g.nodes.length) :
    isFar cfg g (nodeAt g i).pos = false := by
  rw [Bool.eq_false_iff]
  intro hfar
  have hmem := nodeAt_mem g i hi
  have h1 := List.all_eq_true.mp hfar (nodeAt g i) hmem
  have h2 : (cfg.farMultiple * cfg.lengthScale) ^ 2 <
      dist2 (nodeAt g i).pos (nodeAt g i).pos := of_decide_eq_true h1
  have h3 : dist2 (nodeAt g i).pos (nodeAt g i).pos = 0 := by
    simp [dist2]
  rw [h3] at h2
  exact absurd h2 (not_lt.mpr (sq_nonneg _))

/-- C4: a target with requested side +1 or −1 that coincides with source
node `i` is resolved by direct index lookup, with no tolerance-based
geometric search: the search flag is false, the decoded source index is
`i` and the decoded side is exactly the requested side. -/
theorem on_surface_direct_lookup (cfg : AssocConfig) (g : SourceGeometry)
    (i : ℕ) (q : ℤ) (t : Pt)
    (hq : q = 1 ∨ q = -1)
    (hi : i < g.nodes.length)
    (ht : (nodeAt g i).pos = t)
    (hinj : ∀ j, j < g.nodes.length → (nodeAt g j).pos = t → j = i) :
    (assocOne cfg g t q).2 = false ∧
      decodeSource (assocOne cfg g t q).1 = (i : ℤ) ∧
      decodeSide (assocOne cfg g t q).1 = q := by
  have hfar : isFar cfg g t = false := ht ▸ not_far_of_coincident cfg g i hi
  have hsome : ((List.range g.nodes.length).find?
      (fun j => decide ((nodeAt g j).pos = t))).isSome = true := by
    rw [List.find?_isSome]
    exact ⟨i, List.mem_range.mpr hi, decide_eq_true ht⟩
  obtain ⟨j, hj⟩ := Option.isSome_iff_exists.mp hsome
  have hjmem : j < g.nodes.length :=
    List.mem_range.mp (List.mem_of_find?_eq_some hj)
  have hjdec := find?_prop (fun j => decide ((nodeAt g j).pos = t))
    (List.range g.nodes.length) j hj
  have hjpos : (nodeAt g j).pos = t := of_decide_eq_true hjdec
  have hji : j = i := hinj j hjmem hjpos
  subst hji
  have hres : assocOne cfg g t q = (((2 * j + bitFor q : ℕ) : ℤ), false) := by
    unfold assocOne
    rw [if_neg (by simp [hfar]), if_pos hq, hj]
  rw [hres]
  refine ⟨rfl, ?_, ?_⟩
  · rcases hq with h1 | h1 <;> subst h1 <;>
      simp [decodeSource, bitFor] <;> push_cast <;> omega
  · rcases hq with h1 | h1 <;> subst h1 <;>
      simp [decodeSide, bitFor] <;> push_cast <;> omega

/-- Concrete two-node source geometry for witness instances. -/
def gEx : SourceGeometry :=
  ⟨[⟨⟨0, 0⟩, ⟨0, 1⟩, 1⟩, ⟨⟨3, 0⟩, ⟨0, 1⟩, 1⟩]⟩

/-- Concrete association configuration for witness instances. -/
def cfgEx : AssocConfig := ⟨10, 1⟩

/-- Witness for C4 at a concrete two-node geometry. -/
theorem on_surface_direct_lookup_witness :
    (assocOne cfgEx gEx (⟨3, 0⟩ : Pt) 1).2 = false ∧
      decodeSource (assocOne cfgEx gEx (⟨3, 0⟩ : Pt) 1).1 = (1 : ℤ) ∧
      decodeSide (assocOne cfgEx gEx (⟨3, 0⟩ : Pt) 1).1 = 1 :=
  on_surface_direct_lookup cfgEx gEx 1 1 ⟨3, 0⟩ (Or.inl rfl) (by decide)
    (by with_unfolding_all decide) (by with_unfolding_all decide)

/-- C6: a target whose distance from every source exceeds the configured
multiple of the global length scale is short-circuited to the
"unassociated" marker −1 with no geometric search performed, for every
requested side code. -/
theorem far_target_unassociated (cfg : AssocConfig) (g : SourceGeometry)
    (t : Pt) (q : ℤ)
    (h : ∀ i, i < g.nodes.length →
      (cfg.farMultiple * cfg.lengthScale) ^ 2 < dist2 t (nodeAt g i).pos) :
    assocOne cfg g t q = (-1, false) := by
  have hfar : isFar cfg g t = true := by
    unfold isFar
    rw [List.all_eq_true]
    intro s hs
    obtain ⟨j, hjlen, hjs⟩ := List.mem_iff_getElem.mp hs
    have hnode : nodeAt g j = s := by
      simp [nodeAt, List.getD_eq_getElem?_getD, List.getElem?_eq_getElem hjlen,
        hjs]
    exact decide_eq_true (hnode ▸ h j hjlen)
  unfold assocOne
  rw [if_pos hfar]

/-- Witness for C6 at a concrete geometry and a distant target. -/
theorem far_target_unassociated_witness :
    assocOne cfgEx gEx (⟨100, 100⟩ : Pt) 0 = (-1, false) :=
  far_target_unassociated cfgEx gEx ⟨100, 100⟩ 0
    (by with_unfolding_all decide)

/-- A near-surface volume target: a source node position offset by
distance `d` along the node's normal, on side `sign` (the
`targets_from_sources` construction of the tests). -/
def offsetPoint (s : SourceNode) (sign : ℤ) (d : ℚ) : Pt :=
  ⟨s.pos.x + (sign : ℚ) * d * s.normal.x,
   s.pos.y + (sign : ℚ) * d * s.normal.y⟩

/-- Squared distance from an offset target to the same-side center of
its source node, for a unit normal. -/
theorem offset_dist2 (s : SourceNode) (sign : ℤ) (d : ℚ)
    (hs : sign = 1 ∨ sign = -1)
    (hn : s.normal.x ^ 2 + s.normal.y ^ 2 = 1) :
    dist2 (offsetPoint s sign d) (centerPos s sign) =
      (d - s.size / 2) ^ 2 := by
  rcases hs with h | h <;>
    (subst h
     simp only [dist2, offsetPoint, centerPos]
     push_cast
     linear_combination ((d - s.size / 2) ^ 2) * hn)

/-- C5: a near-surface volume target with requested side `2·sign`,
placed at offset `0 < d < panel_size/2` from source node `i` along its
normal, is assigned a center (the entry is nonnegative) whose side
matches `sign` and whose squared distance to the target is within the
squared half panel size at the assigned center's source. -/
theorem near_surface_assoc (cfg : AssocConfig) (g : SourceGeometry)
    (i : ℕ) (sign : ℤ) (d : ℚ)
    (hsign : sign = 1 ∨ sign = -1)
    (hi : i < g.nodes.length)
    (hnorm : (nodeAt g i).normal.x ^ 2 + (nodeAt g i).normal.y ^ 2 = 1)
    (hd0 : 0 < d) (hd1 : d < (nodeAt g i).size / 2)
    (hfar : isFar cfg g (offsetPoint (nodeAt g i) sign d) = false) :
    0 ≤ (assocOne cfg g (offsetPoint (nodeAt g i) sign d) (2 * sign)).1 ∧
    centerSide
        (assocOne cfg g (offsetPoint (nodeAt g i) sign d)
          (2 * sign)).1.toNat = sign ∧
    dist2 (offsetPoint (nodeAt g i) sign d)
        (centerPosIdx g
          (assocOne cfg g (offsetPoint (nodeAt g i) sign d)
            (2 * sign)).1.toNat) ≤
      centerRadius2 g
        (assocOne cfg g (offsetPoint (nodeAt g i) sign d)
          (2 * sign)).1.toNat := by
  have hq1 : ¬ (2 * sign = 1 ∨ 2 * sign = -1) := by
    rcases hsign with h | h <;> subst h <;> decide
  have hq2 : 2 * sign = 2 ∨ 2 * sign = -2 := by
    rcases hsign with h | h <;> subst h
    · exact Or.inl rfl
    · exact Or.inr rfl
  have hside : (if 2 * sign = 2 then (1 : ℤ) else -1) = sign := by
    rcases hsign with h | h <;> subst h <;> decide
  have hc0side : centerSide (2 * i + (if sign = 1 then 1 else 0)) = sign := by
    rcases hsign with h | h <;> subst h
    · have h2 : (2 * i + 1) % 2 = 1 := by omega
      simp [centerSide, h2]
    · have h2 : (2 * i + 0) % 2 = 0 := by omega
      simp [centerSide, h2]
  have hc0src : centerSource (2 * i + (if sign = 1 then 1 else 0)) = i := by
    rcases hsign with h | h <;> subst h <;> simp [centerSource] <;> omega
  have hc0mem : (2 * i + (if sign = 1 then 1 else 0)) ∈
      inTolCenters g (offsetPoint (nodeAt g i) sign d) (Option.some sign) := by
    rw [inTolCenters, List.mem_filter]
    refine ⟨List.mem_range.mpr ?_, ?_⟩
    · rcases hsign with h | h <;> subst h <;> simp <;> omega
    · simp only [Bool.and_eq_true, decide_eq_true_eq]
      refine ⟨hc0side, ?_⟩
      rw [centerPosIdx, centerRadius2, hc0src, hc0side]
      rw [offset_dist2 (nodeAt g i) sign d hsign hnorm]
      nlinarith [hd0, hd1]
  have hne : inTolCenters g (offsetPoint (nodeAt g i) sign d)
      (Option.some sign) ≠ [] := List.ne_nil_of_mem hc0mem
  have hsome := argminCenter_isSome g (offsetPoint (nodeAt g i) sign d) _ hne
  obtain ⟨c, hc⟩ := Option.isSome_iff_exists.mp hsome
  have hcmem := argminCenter_mem g (offsetPoint (nodeAt g i) sign d) _ c hc
  rw [inTolCenters, List.mem_filter] at hcmem
  obtain ⟨hcrange, hcpred⟩ := hcmem
  simp only [Bool.and_eq_true, decide_eq_true_eq] at hcpred
  obtain ⟨hcside, hctol⟩ := hcpred
  have hres : assocOne cfg g (offsetPoint (nodeAt g i) sign d) (2 * sign) =
      ((c : ℤ), true) := by
    unfold assocOne
    rw [if_neg (by simp [hfar]), if_neg hq1, if_pos hq2, hside, hc]
  rw [hres]
  refine ⟨Int.natCast_nonneg c, ?_, ?_⟩
  · simpa using hcside
  · simpa using hctol

/-- Witness for C5: an interior volume target a quarter panel size off
the first node of the concrete geometry. -/
theorem near_surface_assoc_witness :
    0 ≤ (assocOne cfgEx gEx (offsetPoint (nodeAt gEx 0) 1 (1/4)) (2 * 1)).1 ∧
    centerSide
        (assocOne cfgEx gEx (offsetPoint (nodeAt gEx 0) 1 (1/4))
          (2 * 1)).1.toNat = 1 ∧
    dist2 (offsetPoint (nodeAt gEx 0) 1 (1/4))
        (centerPosIdx gEx
          (assocOne cfgEx gEx (offsetPoint (nodeAt gEx 0) 1 (1/4))
            (2 * 1)).1.toNat) ≤
      centerRadius2 gEx
        (assocOne cfgEx gEx (offsetPoint (nodeAt gEx 0) 1 (1/4))
          (2 * 1)).1.toNat :=
  near_surface_assoc cfgEx gEx 0 1 (1/4) (Or.inl rfl) (by decide)
    (by with_unfolding_all decide) (by with_unfolding_all decide)
    (by with_unfolding_all decide) (by with_unfolding_all decide)

/-- The global index of a failing target of a mandatory group is listed
by `failedTargets`, at any offset and after any prefix of groups. -/
theorem failedTargets_mem (cfg : AssocConfig) (g : SourceGeometry)
    (grp : TargetGroup) (post : List TargetGroup) (j : ℕ)
    (hmand : grp.mandatory = true)
    (hj : j < grp.points.length)
    (hfail : (assocOne cfg g (grp.points.getD j dummyPt) grp.qbxSide).1 = -1) :
    ∀ (pre : List TargetGroup) (off : ℕ),
      (off + (pre.map fun p => p.points.length).sum + j) ∈
        failedTargets cfg g off (pre ++ grp :: post) := by
  intro pre
  induction pre with
  | nil =>
    intro off
    simp only [List.nil_append, failedTargets, hmand, if_true, List.map_nil,
      List.sum_nil, Nat.add_zero, Nat.zero_add]
    apply List.mem_append_left
    rw [List.mem_map]
    refine ⟨j, ?_, by omega⟩
    rw [groupFailedLocal, List.mem_filter]
    exact ⟨List.mem_range.mpr hj, decide_eq_true hfail⟩
  | cons p ps ih =>
    intro off
    simp only [List.cons_append, failedTargets]
    apply List.mem_append_right
    have h1 := ih (off + p.points.length)
    have h2 : off + p.points.length + (ps.map fun q => q.points.length).sum
        + j = off + ((p :: ps).map fun q => q.points.length).sum + j := by
      simp [List.map_cons, List.sum_cons]
      omega
    rw [h2] at h1
    exact h1

/-- C7: when a target group is marked mandatory-association and one of
its targets finds no in-tolerance candidate center (its association
entry is the −1 marker), the engine raises the
target-association-failure condition, and the failed target's global
index is carried in the condition's failed-target list. -/
theorem mandatory_association_failure (cfg : AssocConfig)
    (g : SourceGeometry) (pre post : List TargetGroup) (grp : TargetGroup)
    (j : ℕ)
    (hmand : grp.mandatory = true)
    (hj : j < grp.points.length)
    (hfail : (assocOne cfg g (grp.points.getD j dummyPt) grp.qbxSide).1 = -1) :
    associate cfg g (pre ++ grp :: post) =
      Except.error ⟨failedTargets cfg g 0 (pre ++ grp :: post)⟩ ∧
    ((pre.map fun p => p.points.length).sum + j) ∈
      failedTargets cfg g 0 (pre ++ grp :: post) := by
  have hmem := failedTargets_mem cfg g grp post j hmand hj hfail pre 0
  rw [Nat.zero_add] at hmem
  refine ⟨?_, hmem⟩
  rw [associate, if_neg (List.ne_nil_of_mem hmem)]

/-- A concrete mandatory one-target group whose target is far from every
source of `gEx` and hence unassociated. -/
def grpEx : TargetGroup := ⟨[⟨100, 100⟩], 0, true⟩

/-- Witness for C7: the mandatory group `grpEx` raises the failure
condition carrying index 0. -/
theorem mandatory_association_failure_witness :
    associate cfgEx gEx ([] ++ grpEx :: []) =
      Except.error ⟨failedTargets cfgEx gEx 0 ([] ++ grpEx :: [])⟩ ∧
    ((([] : List TargetGroup).map fun p => p.points.length).sum + 0) ∈
      failedTargets cfgEx gEx 0 ([] ++ grpEx :: []) :=
  mandatory_association_failure cfgEx gEx [] [] grpEx 0 rfl (by decide)
    (by with_unfolding_all decide)

/-- Every association entry is the −1 sentinel or a valid center index. -/
theorem assocOne_entry_valid (cfg : AssocConfig) (g : SourceGeometry)
    (t : Pt) (q : ℤ) :
    (assocOne cfg g t q).1 = -1 ∨
      ∃ c : ℕ, c < 2 * g.nodes.length ∧ (assocOne cfg g t q).1 = (c : ℤ) := by
  unfold assocOne
  by_cases hfar : isFar cfg g t
  · rw [if_pos hfar]
    exact Or.inl rfl
  · rw [if_neg hfar]
    by_cases hq1 : q = 1 ∨ q = -1
    · rw [if_pos hq1]
      cases hfd : (List.range g.nodes.length).find?
          (fun i => decide ((nodeAt g i).pos = t)) with
      | none => exact Or.inl rfl
      | some i =>
        refine Or.inr ⟨2 * i + bitFor q, ?_, rfl⟩
        have hilen : i < g.nodes.length :=
          List.mem_range.mp (List.mem_of_find?_eq_some hfd)
        have hbit : bitFor q ≤ 1 := by
          rw [bitFor]; split
          · exact Nat.le_refl 1
          · exact Nat.zero_le 1
        omega
    · rw [if_neg hq1]
      by_cases hq2 : q = 2 ∨ q = -2
      · rw [if_pos hq2]
        cases hcd : argminCenter g t (inTolCenters g t
            (Option.some (if q = 2 then 1 else -1))) with
        | none => exact Or.inl rfl
        | some c =>
          refine Or.inr ⟨c, ?_, rfl⟩
          have := argminCenter_mem g t _ c hcd
          rw [inTolCenters, List.mem_filter] at this
          exact List.mem_range.mp this.1
      · rw [if_neg hq2]
        cases hcd : argminCenter g t (inTolCenters g t Option.none) with
        | none => exact Or.inl rfl
        | some c =>
          refine Or.inr ⟨c, ?_, rfl⟩
          have := argminCenter_mem g t _ c hcd
          rw [inTolCenters, List.mem_filter] at this
          exact List.mem_range.mp this.1

/-- C10: the association result encodes centers by interleaved index —
source node `i` has its side −1 center at index `2 i` and its side +1
center at index `2 i + 1`; decoding any center index by
`target_to_center // 2` and `2·(target_to_center mod 2) − 1` recovers
its source and side; and every association entry is either the −1
"unassociated" sentinel or such a valid center index. -/
theorem target_to_center_encoding (cfg : AssocConfig) (g : SourceGeometry)
    (t : Pt) (q : ℤ) :
    (∀ i : ℕ, centerSource (2 * i) = i ∧ centerSide (2 * i) = -1 ∧
      centerSource (2 * i + 1) = i ∧ centerSide (2 * i + 1) = 1) ∧
    (∀ c : ℕ, decodeSource (c : ℤ) = (centerSource c : ℤ) ∧
      decodeSide (c : ℤ) = centerSide c) ∧
    ((assocOne cfg g t q).1 = -1 ∨
      ∃ c : ℕ, c < 2 * g.nodes.length ∧ (assocOne cfg g t q).1 = (c : ℤ)) := by
  refine ⟨?_, ?_, assocOne_entry_valid cfg g t q⟩
  · intro i
    have h0 : (2 * i) % 2 = 0 := by omega
    have h1 : (2 * i + 1) % 2 = 1 := by omega
    refine ⟨by simp only [centerSource]; omega, by simp [centerSide, h0],
      by simp only [centerSource]; omega, by simp [centerSide, h1]⟩
  · intro c
    rcases Nat.mod_two_eq_zero_or_one c with h | h
    · have hsrc : decodeSource (c : ℤ) = (centerSource c : ℤ) := by
        simp only [decodeSource, centerSource]
        omega
      have hside : decodeSide (c : ℤ) = centerSide c := by
        simp only [decodeSide, centerSide, h, if_pos]
        omega
      exact ⟨hsrc, hside⟩
    · have hsrc : decodeSource (c : ℤ) = (centerSource c : ℤ) := by
        simp only [decodeSource, centerSource]
        omega
      have hside : decodeSide (c : ℤ) = centerSide c := by
        simp only [decodeSide, centerSide, h]
        omega
      exact ⟨hsrc, hside⟩

/-! ## FMM/QBX Cost Model (spec section 4.3) -/

/-- Modelled from the spec: the read-only tree traversal consumed by the
Cost Model — per-box source-point counts, per-box tree levels, the
number of levels, and two per-target-box interaction lists: the direct
(neighbor) source boxes and the separated smaller source boxes feeding
multipole-to-QBX-local translation. -/
structure Traversal where
  boxSourceCounts : List ℕ
  boxLevels : List ℕ
  nlevels : ℕ
  neighborSourceBoxes : List (List ℕ)
  sepSmallerSourceBoxes : List (List ℕ)
deriving DecidableEq

/-- Modelled from the spec: QBX geometry data bundling the traversal
with the per-target-box number of QBX centers. -/
structure GeoData where
  trav : Traversal
  qbxCentersPerTargetBox : List ℕ
deriving DecidableEq

/-- Modelled from the spec (4.3): reference scalar backend of
`get_ndirect_sources_per_target_box` — for each target box, a scalar
loop accumulating the source counts of its direct-interaction boxes. -/
def PythonQBXCostModel.get_ndirect_sources_per_target_box
    (t : Traversal) : List ℕ :=
  t.neighborSourceBoxes.map fun nb =>
    nb.foldl (fun acc b => acc + t.boxSourceCounts.getD b 0) 0

/-- Modelled from the spec (4.3): accelerated vectorized backend of
`get_ndirect_sources_per_target_box` — gather the per-box counts and
reduce. -/
def CLQBXCostModel.get_ndirect_sources_per_target_box
    (t : Traversal) : List ℕ :=
  t.neighborSourceBoxes.map fun nb =>
    (nb.map fun b => t.boxSourceCounts.getD b 0).sum

/-- Modelled from the spec (4.3): reference scalar `process_form_qbxl`
body — walk the per-target-box center counts and direct source counts
in lockstep, multiplying by the unit cost. -/
def formQbxlScalar (cost : ℚ) : List ℕ → List ℕ → List ℚ
  | [], _ => []
  | c :: cs, [] => cost * (c : ℚ) * 0 :: formQbxlScalar cost cs []
  | c :: cs, n :: ns => cost * (c : ℚ) * (n : ℚ) :: formQbxlScalar cost cs ns

/-- Modelled from the spec (4.3): reference scalar backend of
`process_form_qbxl` — per target box, the direct source count times the
unit cost times the number of QBX centers in the box. -/
def PythonQBXCostModel.process_form_qbxl (cost : ℚ) (geo : GeoData)
    (ndirect : List ℕ) : List ℚ :=
  formQbxlScalar cost geo.qbxCentersPerTargetBox ndirect

/-- Modelled from the spec (4.3): accelerated vectorized backend of
`process_form_qbxl` — one work item per target box index. -/
def CLQBXCostModel.process_form_qbxl (cost : ℚ) (geo : GeoData)
    (ndirect : List ℕ) : List ℚ :=
  (List.range geo.qbxCentersPerTargetBox.length).map fun i =>
    cost * ((geo.qbxCentersPerTargetBox.getD i 0 : ℕ) : ℚ) *
      ((ndirect.getD i 0 : ℕ) : ℚ)

/-- Modelled from the spec (4.3): reference scalar `process_m2qbxl`
body — loop over the interacting source boxes of one target box,
accumulating the per-level translation cost of each box's level. -/
def m2qbxlScalarBox (t : Traversal) (costVec : List ℚ)
    (sbs : List ℕ) : ℚ :=
  sbs.foldl (fun acc sb => acc + costVec.getD (t.boxLevels.getD sb 0) 0) 0

/-- Modelled from the spec (4.3): reference scalar backend of
`process_m2qbxl` — aggregate the per-level cost vector into a
per-target-box array according to which level each interacting source
box occupies. -/
def PythonQBXCostModel.process_m2qbxl (geo : GeoData)
    (costVec : List ℚ) : List ℚ :=
  geo.trav.sepSmallerSourceBoxes.map (m2qbxlScalarBox geo.trav costVec)

/-- Modelled from the spec (4.3): accelerated vectorized `process_m2qbxl`
body — per level, count the interacting source boxes on that level and
weight by the level's translation cost, then reduce over levels. -/
def m2qbxlVectorBox (t : Traversal) (costVec : List ℚ)
    (sbs : List ℕ) : ℚ :=
  ∑ lev ∈ Finset.range costVec.length,
    costVec.getD lev 0 *
      ((sbs.countP fun sb => decide (t.boxLevels.getD sb 0 = lev)) : ℚ)

/-- Modelled from the spec (4.3): accelerated vectorized backend of
`process_m2qbxl`. -/
def CLQBXCostModel.process_m2qbxl (geo : GeoData)
    (costVec : List ℚ) : List ℚ :=
  geo.trav.sepSmallerSourceBoxes.map (m2qbxlVectorBox geo.trav costVec)

/-- A left fold accumulating through addition is the accumulator plus
the sum of the mapped list. -/
theorem foldl_add_eq_sum {M : Type} [AddCommMonoid M] (f : ℕ → M) :
    ∀ (l : List ℕ) (a : M),
      l.foldl (fun acc b => acc + f b) a = a + (l.map f).sum := by
  intro l
  induction l with
  | nil => intro a; simp
  | cons b bs ih =>
    intro a
    rw [List.foldl_cons, ih, List.map_cons, List.sum_cons, add_assoc]

/-- One target box: scalar and vectorized m2qbxl aggregation agree when
every interacting box's level indexes into the cost vector. -/
theorem m2qbxl_map_sum_eq (t : Traversal) (costVec : List ℚ) :
    ∀ (sbs : List ℕ),
      (∀ sb ∈ sbs, t.boxLevels.getD sb 0 < costVec.length) →
      (sbs.map fun sb => costVec.getD (t.boxLevels.getD sb 0) 0).sum =
        m2qbxlVectorBox t costVec sbs := by
  intro sbs
  induction sbs with
  | nil => intro _; simp [m2qbxlVectorBox]
  | cons sb rest ih =>
    intro hwf
    have hsb := hwf sb (List.mem_cons_self sb rest)
    have hrest : ∀ b ∈ rest, t.boxLevels.getD b 0 < costVec.length :=
      fun b hb => hwf b (List.mem_cons_of_mem sb hb)
    rw [List.map_cons, List.sum_cons, ih hrest]
    rw [m2qbxlVectorBox, m2qbxlVectorBox]
    simp only [List.countP_cons, decide_eq_true_eq]
    push_cast
    simp only [mul_add, Finset.sum_add_distrib]
    rw [add_comm]
    congr 1
    simp only [mul_ite, mul_one, mul_zero]
    rw [Finset.sum_ite_eq]
    exact (if_pos (Finset.mem_range.mpr hsb)).symm

/-- The scalar per-box m2qbxl loop equals the vectorized reduction. -/
theorem m2qbxlBox_eq (t : Traversal) (costVec : List ℚ) (sbs : List ℕ)
    (h : ∀ sb ∈ sbs, t.boxLevels.getD sb 0 < costVec.length) :
    m2qbxlScalarBox t costVec sbs = m2qbxlVectorBox t costVec sbs := by
  rw [m2qbxlScalarBox, foldl_add_eq_sum, zero_add]
  exact m2qbxl_map_sum_eq t costVec sbs h

/-- The scalar form_qbxl walk equals the index-vectorized map. -/
theorem formQbxl_eq (cost : ℚ) :
    ∀ (cs nd : List ℕ),
      formQbxlScalar cost cs nd =
        (List.range cs.length).map fun i =>
          cost * ((cs.getD i 0 : ℕ) : ℚ) * ((nd.getD i 0 : ℕ) : ℚ) := by
  intro cs
  induction cs with
  | nil => intro nd; simp [formQbxlScalar]
  | cons c cs ih =>
    intro nd
    cases nd with
    | nil =>
      rw [formQbxlScalar, ih []]
      rw [List.length_cons, List.range_succ_eq_map, List.map_cons,
        List.map_map]
      congr 1
    | cons n ns =>
      rw [formQbxlScalar, ih ns]
      rw [List.length_cons, List.range_succ_eq_map, List.map_cons,
        List.map_map]
      congr 1

/-- C9: `get_ndirect_sources_per_target_box` is a pure function of the
traversal alone returning, per target box, the total source count of
the boxes on its direct-interaction list (a natural number — no
floating-point coefficients are involved), and the two backends compute
the same counts. -/
theorem ndirect_sources_pure_count (t : Traversal) :
    CLQBXCostModel.get_ndirect_sources_per_target_box t =
      PythonQBXCostModel.get_ndirect_sources_per_target_box t ∧
    PythonQBXCostModel.get_ndirect_sources_per_target_box t =
      (t.neighborSourceBoxes.map fun nb =>
        (nb.map fun b => t.boxSourceCounts.getD b 0).sum) := by
  have hpy : PythonQBXCostModel.get_ndirect_sources_per_target_box t =
      (t.neighborSourceBoxes.map fun nb =>
        (nb.map fun b => t.boxSourceCounts.getD b 0).sum) := by
    rw [PythonQBXCostModel.get_ndirect_sources_per_target_box]
    simp only [foldl_add_eq_sum, zero_add]
  exact ⟨by rw [CLQBXCostModel.get_ndirect_sources_per_target_box, hpy], hpy⟩

/-- C1: on identical traversal and parameter inputs the accelerated
vectorized backend and the reference scalar backend return equal cost
arrays for `process_form_qbxl` and `process_m2qbxl` (exact equality of
the rational-valued model, for every cost constant and per-level cost
vector covering the levels that occur). -/
theorem cl_py_cost_model_equal (cost : ℚ) (geo : GeoData)
    (costVec : List ℚ) (ndirect : List ℕ)
    (hwf : ∀ sbs ∈ geo.trav.sepSmallerSourceBoxes, ∀ sb ∈ sbs,
      geo.trav.boxLevels.getD sb 0 < costVec.length) :
    CLQBXCostModel.process_form_qbxl cost geo ndirect =
      PythonQBXCostModel.process_form_qbxl cost geo ndirect ∧
    CLQBXCostModel.process_m2qbxl geo costVec =
      PythonQBXCostModel.process_m2qbxl geo costVec := by
  constructor
  · rw [CLQBXCostModel.process_form_qbxl,
      PythonQBXCostModel.process_form_qbxl, formQbxl_eq]
  · rw [CLQBXCostModel.process_m2qbxl, PythonQBXCostModel.process_m2qbxl]
    apply List.map_congr_left
    intro sbs hs
    exact (m2qbxlBox_eq geo.trav costVec sbs (hwf sbs hs)).symm

/-- A concrete traversal for witness instances: three boxes on two
levels, two target boxes. -/
def travEx : Traversal := ⟨[3, 5, 2], [0, 1, 1], 2, [[0, 1], [2]], [[1, 2], [0]]⟩

/-- Concrete geometry data bundling `travEx` with center counts. -/
def geoEx : GeoData := ⟨travEx, [2, 1]⟩

/-- Witness for C1 at the concrete traversal `travEx`. -/
theorem cl_py_cost_model_equal_witness :
    CLQBXCostModel.process_form_qbxl 5 geoEx [8, 2] =
      PythonQBXCostModel.process_form_qbxl 5 geoEx [8, 2] ∧
    CLQBXCostModel.process_m2qbxl geoEx [1, 7] =
      PythonQBXCostModel.process_m2qbxl geoEx [1, 7] :=
  cl_py_cost_model_equal 5 geoEx [1, 7] [8, 2] (by decide)

end Pytential
